import Mathlib

/-!
Verification model of the arb-finder order-book engine and cross-venue
arbitrage detector.

Modelling conventions:
* `rust_decimal::Decimal` values (prices, quantities, fees) are modelled as
  exact rationals `ℚ`; `Decimal` is a fixed-point decimal type and the spec
  mandates decimal semantics for all price/fee arithmetic.
* `f64` keys: both order-book types key their `BTreeMap`s by
  `OrderedFloat(price.to_f64().unwrap_or(0.0))`.  The conversion is modelled
  by `toF64`, the correctly rounded (round to nearest, ties to even) binary64
  image of the rational value.  Every nonzero `Decimal` has magnitude in
  `[10^-28, 2^96)`, squarely inside the normal binary64 range, so neither
  subnormals nor overflow need to be modelled.
* A `BTreeMap` side is modelled as an association list ordered by ascending
  key; `keyInsert`/`keyErase` mirror `BTreeMap::insert`/`BTreeMap::remove`.
* Wall-clock reads (`Utc::now()`) are modelled by an explicit `now : ℚ`
  argument to every operation that performs one.
* `u64` sequence counters live in `ℕ`; `wrapping_add(1)` is `(n + 1) % 2^64`.
* The `DefaultHasher` digest of `calculate_checksum` is modelled by the exact
  stream of data fed to the hasher (the top-10 `(price, quantity)` pairs of
  both sides): the digest is a deterministic function of this stream, so two
  books agree on the modelled value iff the hasher is fed identical input.
-/

namespace ArbFinder

/-- Round a rational to the nearest integer, ties to even (the IEEE-754
default rounding used when converting a decimal value to `f64`). -/
def roundHalfEven (x : ℚ) : ℤ :=
  let n : ℤ := ⌊x⌋
  let f : ℚ := x - n
  if f < 1/2 then n
  else if 1/2 < f then n + 1
  else if n % 2 = 0 then n else n + 1

/-- Correctly rounded binary64 image of a positive rational (normal range):
significand of 53 bits, round to nearest, ties to even. -/
def toF64Pos (q : ℚ) : ℚ :=
  let e : ℤ := Int.log 2 q
  ((roundHalfEven (q * 2 ^ ((52 : ℤ) - e)) : ℚ)) * 2 ^ (e - 52)

/-- Model of `Decimal::to_f64` (total on the `Decimal` range): the correctly
rounded binary64 value, as a rational. -/
def toF64 (q : ℚ) : ℚ :=
  if q = 0 then 0
  else if 0 < q then toF64Pos q
  else -toF64Pos (-q)

/-- Model of `arbfinder_core::Symbol` (base and quote asset names). -/
structure Symbol where
  base : String
  quote : String
deriving DecidableEq

/-- Model of `arbfinder_core::Side`. -/
inductive Side where
  | Bid
  | Ask
deriving DecidableEq

/-- Model of `orderbook::book::PriceLevel`: price, aggregate quantity, order
count and last-update timestamp. -/
structure PriceLevel where
  price : ℚ
  quantity : ℚ
  order_count : ℕ
  last_updated : ℚ
deriving DecidableEq

/-- Model of `PriceLevel::with_order_count`. -/
def PriceLevel.with_order_count (price quantity : ℚ) (order_count : ℕ) (now : ℚ) :
    PriceLevel :=
  { price := price, quantity := quantity, order_count := order_count, last_updated := now }

/-- Model of `BTreeMap::insert` on an association list ordered by ascending
key: replaces the value at an existing key, otherwise inserts at the sorted
position. -/
def keyInsert {α : Type} (k : ℚ) (v : α) : List (ℚ × α) → List (ℚ × α)
  | [] => [(k, v)]
  | (k1, v1) :: t =>
    if k < k1 then (k, v) :: (k1, v1) :: t
    else if k = k1 then (k, v) :: t
    else (k1, v1) :: keyInsert k v t

/-- Model of `BTreeMap::remove` on an association list with unique keys. -/
def keyErase {α : Type} (k : ℚ) : List (ℚ × α) → List (ℚ × α)
  | [] => []
  | (k1, v1) :: t => if k = k1 then t else (k1, v1) :: keyErase k t

/-- Model of `orderbook::book::FastOrderBook`.  `bids` and `asks` are the two
`BTreeMap<OrderedFloat<f64>, PriceLevel>` sides as ascending-key association
lists.  The stored venue checksum is modelled (like `calculate_checksum`) by
the hasher input stream it was computed from. -/
structure FastOrderBook where
  symbol : Symbol
  bids : List (ℚ × PriceLevel)
  asks : List (ℚ × PriceLevel)
  sequence : ℕ
  last_update : ℚ
  checksum : Option (List (ℚ × ℚ))
  max_depth : ℕ
deriving DecidableEq

/-- Model of `FastOrderBook::new`. -/
def FastOrderBook.new (symbol : Symbol) (max_depth : Option ℕ) (now : ℚ) :
    FastOrderBook :=
  { symbol := symbol, bids := [], asks := [], sequence := 0,
    last_update := now, checksum := none, max_depth := max_depth.getD 1000 }

/-- Model of `trim_depth(Side::Bid)`: while the bid side holds more than
`max_depth` levels, the smallest key (worst bid) is removed; on an ascending
list this drops the excess from the front. -/
def trimBids (max_depth : ℕ) (l : List (ℚ × PriceLevel)) : List (ℚ × PriceLevel) :=
  l.drop (l.length - max_depth)

/-- Model of `trim_depth(Side::Ask)`: while the ask side holds more than
`max_depth` levels, the largest key (worst ask) is removed; on an ascending
list this keeps the first `max_depth` entries. -/
def trimAsks (max_depth : ℕ) (l : List (ℚ × PriceLevel)) : List (ℚ × PriceLevel) :=
  l.take max_depth

/-- Model of `FastOrderBook::update_bid`. -/
def FastOrderBook.update_bid (b : FastOrderBook) (price quantity : ℚ)
    (order_count : Option ℕ) (now : ℚ) : FastOrderBook :=
  let price_key := toF64 price
  let bids :=
    if quantity = 0 then keyErase price_key b.bids
    else keyInsert price_key (PriceLevel.with_order_count price quantity (order_count.getD 1) now) b.bids
  { b with bids := trimBids b.max_depth bids,
           sequence := (b.sequence + 1) % 2 ^ 64,
           last_update := now }

/-- Model of `FastOrderBook::update_ask`. -/
def FastOrderBook.update_ask (b : FastOrderBook) (price quantity : ℚ)
    (order_count : Option ℕ) (now : ℚ) : FastOrderBook :=
  let price_key := toF64 price
  let asks :=
    if quantity = 0 then keyErase price_key b.asks
    else keyInsert price_key (PriceLevel.with_order_count price quantity (order_count.getD 1) now) b.asks
  { b with asks := trimAsks b.max_depth asks,
           sequence := (b.sequence + 1) % 2 ^ 64,
           last_update := now }

/-- Model of `orderbook::book::OrderBookUpdate`. -/
structure OrderBookUpdate where
  side : Side
  price : ℚ
  quantity : ℚ
  order_count : Option ℕ
  timestamp : Option ℚ
deriving DecidableEq

/-- Model of `FastOrderBook::batch_update`. -/
def FastOrderBook.batch_update (b : FastOrderBook) (updates : List OrderBookUpdate)
    (now : ℚ) : FastOrderBook :=
  updates.foldl
    (fun bk u =>
      match u.side with
      | Side.Bid => bk.update_bid u.price u.quantity u.order_count now
      | Side.Ask => bk.update_ask u.price u.quantity u.order_count now)
    b

/-- Model of `FastOrderBook::replace_bids`: clear the side, insert every given
level keyed by the `f64` image of its price, trim, advance the sequence. -/
def FastOrderBook.replace_bids (b : FastOrderBook) (levels : List PriceLevel)
    (now : ℚ) : FastOrderBook :=
  let bids := levels.foldl (fun acc level => keyInsert (toF64 level.price) level acc) []
  { b with bids := trimBids b.max_depth bids,
           sequence := (b.sequence + 1) % 2 ^ 64,
           last_update := now }

/-- Model of `FastOrderBook::replace_asks`. -/
def FastOrderBook.replace_asks (b : FastOrderBook) (levels : List PriceLevel)
    (now : ℚ) : FastOrderBook :=
  let asks := levels.foldl (fun acc level => keyInsert (toF64 level.price) level acc) []
  { b with asks := trimAsks b.max_depth asks,
           sequence := (b.sequence + 1) % 2 ^ 64,
           last_update := now }

/-- Model of `FastOrderBook::best_bid`: the value at the largest bid key. -/
def FastOrderBook.best_bid (b : FastOrderBook) : Option PriceLevel :=
  b.bids.getLast?.map Prod.snd

/-- Model of `FastOrderBook::best_ask`: the value at the smallest ask key. -/
def FastOrderBook.best_ask (b : FastOrderBook) : Option PriceLevel :=
  b.asks.head?.map Prod.snd

/-- Model of `FastOrderBook::best_bid_price`. -/
def FastOrderBook.best_bid_price (b : FastOrderBook) : Option ℚ :=
  b.best_bid.map PriceLevel.price

/-- Model of `FastOrderBook::best_ask_price`. -/
def FastOrderBook.best_ask_price (b : FastOrderBook) : Option ℚ :=
  b.best_ask.map PriceLevel.price

/-- Model of `FastOrderBook::spread`. -/
def FastOrderBook.spread (b : FastOrderBook) : Option ℚ :=
  match b.best_bid_price, b.best_ask_price with
  | some bid, some ask => some (ask - bid)
  | _, _ => none

/-- Model of `FastOrderBook::mid_price`. -/
def FastOrderBook.mid_price (b : FastOrderBook) : Option ℚ :=
  match b.best_bid_price, b.best_ask_price with
  | some bid, some ask => some ((bid + ask) / 2)
  | _, _ => none

/-- Model of `FastOrderBook::is_crossed`: both sides non-empty and best bid
at or above best ask. -/
def FastOrderBook.is_crossed (b : FastOrderBook) : Bool :=
  match b.best_bid_price, b.best_ask_price with
  | some bid, some ask => decide (ask ≤ bid)
  | _, _ => false

/-- Model of `FastOrderBook::get_bids` (best price first). -/
def FastOrderBook.get_bids (b : FastOrderBook) (depth : Option ℕ) : List PriceLevel :=
  ((b.bids.map Prod.snd).reverse).take (depth.getD b.max_depth)

/-- Model of `FastOrderBook::get_asks` (best price first). -/
def FastOrderBook.get_asks (b : FastOrderBook) (depth : Option ℕ) : List PriceLevel :=
  (b.asks.map Prod.snd).take (depth.getD b.max_depth)

/-- Model of `FastOrderBook::calculate_checksum`: the `DefaultHasher` digest is
modelled by the exact data stream hashed, the `(price, quantity)` pairs of the
top 10 levels of both sides. -/
def FastOrderBook.calculate_checksum (b : FastOrderBook) : List (ℚ × ℚ) :=
  (b.get_bids (some 10)).map (fun level => (level.price, level.quantity))
    ++ (b.get_asks (some 10)).map (fun level => (level.price, level.quantity))

/-- Model of `orderbook::book::OrderBookSnapshot`. -/
structure OrderBookSnapshot where
  symbol : Symbol
  bids : List PriceLevel
  asks : List PriceLevel
  sequence : ℕ
  timestamp : ℚ
deriving DecidableEq

/-- Model of `OrderBookSnapshot::apply_to_book`: set the symbol, replace both
sides, then overwrite the sequence with the snapshot sequence
(`set_sequence`) and the last-update time with the snapshot timestamp. -/
def OrderBookSnapshot.apply_to_book (s : OrderBookSnapshot) (b : FastOrderBook)
    (now : ℚ) : FastOrderBook :=
  let b1 := { b with symbol := s.symbol }
  let b2 := (b1.replace_bids s.bids now).replace_asks s.asks now
  { b2 with sequence := s.sequence, last_update := s.timestamp }

/-- Model of `arbfinder_core::OrderBookLevel` (the level type of the core
`OrderBook` consumed by the arbitrage detector). -/
structure OrderBookLevel where
  price : ℚ
  quantity : ℚ
  timestamp : ℚ
deriving DecidableEq

/-- Model of `arbfinder_core::OrderBook`: the detector-facing book, again two
`BTreeMap<OrderedFloat<f64>, OrderBookLevel>` sides as ascending-key
association lists. -/
structure OrderBook where
  symbol : Symbol
  bids : List (ℚ × OrderBookLevel)
  asks : List (ℚ × OrderBookLevel)
  timestamp : ℚ
  sequence : Option ℕ
deriving DecidableEq

/-- Model of `OrderBook::new`. -/
def OrderBook.new (symbol : Symbol) (now : ℚ) : OrderBook :=
  { symbol := symbol, bids := [], asks := [], timestamp := now, sequence := none }

/-- Model of `OrderBook::best_bid`. -/
def OrderBook.best_bid (b : OrderBook) : Option OrderBookLevel :=
  b.bids.getLast?.map Prod.snd

/-- Model of `OrderBook::best_ask`. -/
def OrderBook.best_ask (b : OrderBook) : Option OrderBookLevel :=
  b.asks.head?.map Prod.snd

/-- Model of `OrderBook::update_bid`. -/
def OrderBook.update_bid (b : OrderBook) (price quantity : ℚ) (now : ℚ) : OrderBook :=
  let key := toF64 price
  let bids :=
    if quantity = 0 then keyErase key b.bids
    else keyInsert key { price := price, quantity := quantity, timestamp := now } b.bids
  { b with bids := bids, timestamp := now }

/-- Model of `OrderBook::update_ask`. -/
def OrderBook.update_ask (b : OrderBook) (price quantity : ℚ) (now : ℚ) : OrderBook :=
  let key := toF64 price
  let asks :=
    if quantity = 0 then keyErase key b.asks
    else keyInsert key { price := price, quantity := quantity, timestamp := now } b.asks
  { b with asks := asks, timestamp := now }

/-- Model of `arbfinder_core::ArbFinderError` (the `InvalidData` case carries
the message naming the failing field). -/
inductive ArbFinderError where
  | InvalidData (msg : String)
deriving DecidableEq

/-- Model of `validation::validate_price`. -/
def validate_price (price : ℚ) : Except ArbFinderError Unit :=
  if price ≤ 0 then Except.error (ArbFinderError.InvalidData ("Price must be positive"))
  else if 1000000000 < price then Except.error (ArbFinderError.InvalidData ("Price is too large"))
  else Except.ok ()

/-- Model of `validation::validate_quantity`. -/
def validate_quantity (quantity : ℚ) : Except ArbFinderError Unit :=
  if quantity ≤ 0 then Except.error (ArbFinderError.InvalidData ("Quantity must be positive"))
  else if 1000000000 < quantity then Except.error (ArbFinderError.InvalidData ("Quantity is too large"))
  else Except.ok ()

/-- Model of `arbfinder_core::VenueId`. -/
inductive VenueId where
  | Binance
  | Coinbase
  | Kraken
  | Bitfinex
  | Huobi
  | OKX
  | Custom (name : String)
deriving DecidableEq

/-- Model of `strategy::arbitrage::ArbitrageOpportunity`. -/
structure ArbitrageOpportunity where
  symbol : Symbol
  buy_venue : VenueId
  sell_venue : VenueId
  buy_price : ℚ
  sell_price : ℚ
  profit_percentage : ℚ
  max_volume : ℚ
  estimated_profit : ℚ
  timestamp : ℚ
deriving DecidableEq

/-- Lookup in the detector's `HashMap<VenueId, Decimal>` fee table, modelled
as an association list. -/
def feesGet : List (VenueId × ℚ) → VenueId → Option ℚ
  | [], _ => none
  | (v1, f1) :: t, v => if v1 = v then some f1 else feesGet t v

/-- Model of `HashMap::insert` on the fee table: replaces the entry for an
existing venue, otherwise appends. -/
def feesInsert (v : VenueId) (fee : ℚ) : List (VenueId × ℚ) → List (VenueId × ℚ)
  | [] => [(v, fee)]
  | (v1, f1) :: t => if v1 = v then (v, fee) :: t else (v1, f1) :: feesInsert v fee t

/-- Model of `strategy::arbitrage::CrossExchangeArbitrageDetector`. -/
structure CrossExchangeArbitrageDetector where
  min_profit_threshold : ℚ
  min_volume_threshold : ℚ
  trading_fees : List (VenueId × ℚ)
deriving DecidableEq

/-- Model of `CrossExchangeArbitrageDetector::new`: threshold stored directly
in bps, default fee table Binance 0.1 percent, Coinbase 0.5 percent,
Kraken 0.26 percent. -/
def CrossExchangeArbitrageDetector.new (min_profit_bps : ℤ) (min_volume : ℚ) :
    CrossExchangeArbitrageDetector :=
  { min_profit_threshold := (min_profit_bps : ℚ),
    min_volume_threshold := min_volume,
    trading_fees :=
      [(VenueId.Binance, 1/1000), (VenueId.Coinbase, 5/1000), (VenueId.Kraken, 26/10000)] }

/-- The fee rate the detector uses for a venue:
`self.trading_fees.get(&venue).copied().unwrap_or(Decimal::new(1, 3))`,
the configured rate with a 0.1 percent fallback. -/
def CrossExchangeArbitrageDetector.effective_fee (d : CrossExchangeArbitrageDetector)
    (v : VenueId) : ℚ :=
  (feesGet d.trading_fees v).getD (1/1000)

/-- The net profit in basis points computed by `check_arbitrage_direction`:
gross bps `((sell - buy) / buy) * 10000` minus total fee bps
`(buy_fee + sell_fee) * 10000`. -/
def CrossExchangeArbitrageDetector.net_profit_bps (d : CrossExchangeArbitrageDetector)
    (buy_venue sell_venue : VenueId) (buy_price sell_price : ℚ) : ℚ :=
  ((sell_price - buy_price) / buy_price) * 10000
    - (d.effective_fee buy_venue + d.effective_fee sell_venue) * 10000

/-- Model of `CrossExchangeArbitrageDetector::check_arbitrage_direction`. -/
def CrossExchangeArbitrageDetector.check_arbitrage_direction
    (d : CrossExchangeArbitrageDetector) (symbol : Symbol)
    (buy_venue sell_venue : VenueId) (buy_book sell_book : OrderBook)
    (now : ℚ) : Option ArbitrageOpportunity :=
  match buy_book.best_ask, sell_book.best_bid with
  | some best_ask, some best_bid =>
    let buy_price := best_ask.price
    let sell_price := best_bid.price
    if sell_price ≤ buy_price then none
    else
      let net_bps := d.net_profit_bps buy_venue sell_venue buy_price sell_price
      if net_bps < d.min_profit_threshold then none
      else
        let max_volume := min best_ask.quantity best_bid.quantity
        let volume_value := max_volume * buy_price
        if volume_value < d.min_volume_threshold then none
        else
          some { symbol := symbol, buy_venue := buy_venue, sell_venue := sell_venue,
                 buy_price := buy_price, sell_price := sell_price,
                 profit_percentage := net_bps / 10000,
                 max_volume := max_volume,
                 estimated_profit :=
                   (sell_price - buy_price - buy_price * d.effective_fee buy_venue
                     - sell_price * d.effective_fee sell_venue) * max_volume,
                 timestamp := now }
  | _, _ => none

/-- Model of `CrossExchangeArbitrageDetector::detect_opportunities`: for every
pair of distinct venues in iteration order, check both directions and collect
the results.  The venue iteration order of the `HashMap` is made explicit by
passing the books as a list. -/
def CrossExchangeArbitrageDetector.detect_opportunities
    (d : CrossExchangeArbitrageDetector) (symbol : Symbol)
    (orderbooks : List (VenueId × OrderBook)) (now : ℚ) : List ArbitrageOpportunity :=
  match orderbooks with
  | [] => []
  | (venue_a, book_a) :: rest =>
    (rest.foldr
      (fun vb acc =>
        ((d.check_arbitrage_direction symbol venue_a vb.1 book_a vb.2 now).toList
          ++ (d.check_arbitrage_direction symbol vb.1 venue_a vb.2 book_a now).toList)
          ++ acc)
      [])
      ++ d.detect_opportunities symbol rest now

/-- Model of `CrossExchangeArbitrageDetector::set_trading_fee`. -/
def CrossExchangeArbitrageDetector.set_trading_fee (d : CrossExchangeArbitrageDetector)
    (venue : VenueId) (fee : ℚ) : CrossExchangeArbitrageDetector :=
  { d with trading_fees := feesInsert venue fee d.trading_fees }

/-- The fields of an `ArbitrageOpportunity` other than its creation
timestamp. -/
def oppData (o : ArbitrageOpportunity) :
    Symbol × VenueId × VenueId × ℚ × ℚ × ℚ × ℚ × ℚ :=
  (o.symbol, o.buy_venue, o.sell_venue, o.buy_price, o.sell_price,
    o.profit_percentage, o.max_volume, o.estimated_profit)

/-- One mutation of a `FastOrderBook` through its public update/replace
surface (`batch_update` is a fold of single-level updates). -/
inductive BookOp where
  | updateBid (price quantity : ℚ) (order_count : Option ℕ) (now : ℚ)
  | updateAsk (price quantity : ℚ) (order_count : Option ℕ) (now : ℚ)
  | batchUpdate (updates : List OrderBookUpdate) (now : ℚ)
  | replaceBids (levels : List PriceLevel) (now : ℚ)
  | replaceAsks (levels : List PriceLevel) (now : ℚ)

/-- Apply one `BookOp` to a book. -/
def BookOp.apply (b : FastOrderBook) : BookOp → FastOrderBook
  | BookOp.updateBid p q c now => b.update_bid p q c now
  | BookOp.updateAsk p q c now => b.update_ask p q c now
  | BookOp.batchUpdate us now => b.batch_update us now
  | BookOp.replaceBids ls now => b.replace_bids ls now
  | BookOp.replaceAsks ls now => b.replace_asks ls now

/-- Well-formed input: updates carry a nonnegative quantity (zero meaning
deletion), snapshot levels a strictly positive one. -/
def BookOp.wf : BookOp → Prop
  | BookOp.updateBid _ q _ _ => 0 ≤ q
  | BookOp.updateAsk _ q _ _ => 0 ≤ q
  | BookOp.batchUpdate us _ => ∀ u ∈ us, 0 ≤ u.quantity
  | BookOp.replaceBids ls _ => ∀ level ∈ ls, 0 < level.quantity
  | BookOp.replaceAsks ls _ => ∀ level ∈ ls, 0 < level.quantity

/-- Apply a sequence of operations from left to right. -/
def applyOps (b : FastOrderBook) (ops : List BookOp) : FastOrderBook :=
  ops.foldl BookOp.apply b

/-- Every level stored on a side has strictly positive quantity. -/
def posQty (l : List (ℚ × PriceLevel)) : Prop :=
  ∀ e ∈ l, 0 < e.2.quantity

/-- Every entry of a side is keyed by the `f64` image of its stored price
(true of every book the code constructs). -/
def keysWF (l : List (ℚ × PriceLevel)) : Prop :=
  ∀ e ∈ l, e.1 = toF64 e.2.price

/-- The BTC/USDT symbol used by the repository's tests. -/
def symBTC : Symbol := { base := "BTC", quote := "USDT" }

/-- Venue A book of concrete scenario 1 (the e2e test's Binance book):
best bid 50000 qty 1.0, best ask 50010 qty 1.5. -/
def binanceBook : OrderBook :=
  ((OrderBook.new symBTC 0).update_bid 50000 1 0).update_ask 50010 (3/2) 0

/-- Venue B book of concrete scenario 1 (the e2e test's Coinbase book):
best bid 50120 qty 1.2, best ask 50130 qty 1.0. -/
def coinbaseBook : OrderBook :=
  ((OrderBook.new symBTC 0).update_bid 50120 (6/5) 0).update_ask 50130 1 0

/-- Scenario 1 detector: 10 bps minimum profit, 100 minimum volume, both
venues' fees set to 0.1 percent (Binance's default; Coinbase overridden). -/
def scen1Det : CrossExchangeArbitrageDetector :=
  (CrossExchangeArbitrageDetector.new 10 100).set_trading_fee VenueId.Coinbase (1/1000)

/-- Scenario 1 detector with the minimum-profit threshold lowered to 1 bps. -/
def scen1DetLow : CrossExchangeArbitrageDetector :=
  (CrossExchangeArbitrageDetector.new 1 100).set_trading_fee VenueId.Coinbase (1/1000)

/-- The scenario 1 venue-to-book list. -/
def scen1Books : List (VenueId × OrderBook) :=
  [(VenueId.Binance, binanceBook), (VenueId.Coinbase, coinbaseBook)]

/-- A wide-spread buy-side book: best ask 100 qty 2. -/
def wideBuyBook : OrderBook := (OrderBook.new symBTC 0).update_ask 100 2 0

/-- A wide-spread sell-side book: best bid 110 qty 2. -/
def wideSellBook : OrderBook := (OrderBook.new symBTC 0).update_bid 110 2 0

/-- A detector with default fees, 10 bps minimum profit, 100 minimum volume. -/
def defaultDet : CrossExchangeArbitrageDetector := CrossExchangeArbitrageDetector.new 10 100

/-- The wide-spread venue-to-book list (Binance cheap, Coinbase expensive). -/
def wideBooks : List (VenueId × OrderBook) :=
  [(VenueId.Binance, wideBuyBook), (VenueId.Coinbase, wideSellBook)]

/-- A concrete snapshot: one bid level at 100, one ask level at 101,
sequence 5. -/
def snapEx : OrderBookSnapshot :=
  { symbol := symBTC,
    bids := [{ price := 100, quantity := 1, order_count := 1, last_updated := 0 }],
    asks := [{ price := 101, quantity := 2, order_count := 1, last_updated := 0 }],
    sequence := 5, timestamp := 0 }

/-- A fresh empty book. -/
def emptyBook : FastOrderBook := FastOrderBook.new symBTC none 0

/-- A book whose best bid and best ask sit at the same price 100. -/
def equalBook : FastOrderBook :=
  ((FastOrderBook.new symBTC none 0).update_bid 100 1 none 0).update_ask 100 1 none 0

/-- A small uncrossed book: bid 100 qty 1, ask 101 qty 2. -/
def smallBook : FastOrderBook :=
  ((FastOrderBook.new symBTC none 0).update_bid 100 1 none 0).update_ask 101 2 none 0

/-- Decimal price 0.1 (mantissa 1, scale 1). -/
def pA : ℚ := 1/10

/-- Decimal price 0.1000000000000000000001 (mantissa `10^21 + 1`, scale 22):
distinct from `pA` but with the same binary64 image. -/
def pB : ℚ := (10 ^ 21 + 1) / 10 ^ 22

/-- A book holding a single bid level inserted at price `pA`. -/
def aliasBook : FastOrderBook := (FastOrderBook.new symBTC none 0).update_bid pA 5 none 0

/-- A well-formed operation sequence: an insert, a deletion, a snapshot-style
replace with a positive level. -/
def opsEx : List BookOp :=
  [BookOp.updateBid 100 1 none 0,
   BookOp.updateBid 100 0 none 0,
   BookOp.replaceBids [{ price := 50, quantity := 2, order_count := 1, last_updated := 0 }] 0]

theorem roundHalfEven_intCast (k : ℤ) : roundHalfEven (k : ℚ) = k := by
  simp [roundHalfEven]

theorem roundHalfEven_eq_of_lt (x : ℚ) (n : ℤ) (h1 : (n : ℚ) ≤ x)
    (h2 : x < (n : ℚ) + 1/2) : roundHalfEven x = n := by
  have hf : ⌊x⌋ = n := Int.floor_eq_iff.mpr ⟨h1, by push_cast; linarith⟩
  have hlt : x - ((n : ℤ) : ℚ) < 1/2 := by push_cast; linarith
  simp only [roundHalfEven, hf]
  rw [if_pos hlt]

theorem roundHalfEven_eq_of_gt (x : ℚ) (n : ℤ) (h1 : (n : ℚ) + 1/2 < x)
    (h2 : x < (n : ℚ) + 1) : roundHalfEven x = n + 1 := by
  have hf : ⌊x⌋ = n := Int.floor_eq_iff.mpr ⟨by linarith, by push_cast; linarith⟩
  have hge : ¬ (x - ((n : ℤ) : ℚ) < 1/2) := by push_cast; linarith
  have hgt : 1/2 < x - ((n : ℤ) : ℚ) := by push_cast; linarith
  simp only [roundHalfEven, hf]
  rw [if_neg hge, if_pos hgt]

theorem intLog2_eq (q : ℚ) (e : ℤ) (hq : 0 < q) (h1 : (2:ℚ) ^ e ≤ q)
    (h2 : q < (2:ℚ) ^ (e + 1)) : Int.log 2 q = e := by
  have hb : (1:ℕ) < 2 := by norm_num
  have ha : e ≤ Int.log 2 q := by
    rw [← Int.zpow_le_iff_le_log hb hq]
    exact_mod_cast h1
  have hc : Int.log 2 q < e + 1 := by
    rw [← Int.lt_zpow_iff_log_lt hb hq]
    exact_mod_cast h2
  omega

theorem toF64_eq_of (q : ℚ) (e m : ℤ) (hq : 0 < q) (h1 : (2:ℚ) ^ e ≤ q)
    (h2 : q < (2:ℚ) ^ (e + 1)) (hm : roundHalfEven (q * 2 ^ ((52:ℤ) - e)) = m) :
    toF64 q = (m : ℚ) * 2 ^ (e - 52) := by
  rw [toF64, if_neg (ne_of_gt hq), if_pos hq]
  simp only [toF64Pos]
  rw [intLog2_eq q e hq h1 h2, hm]

theorem toF64_int (n : ℤ) (h1 : 1 ≤ n) (h2 : n < 2 ^ 53) : toF64 (n : ℚ) = (n : ℚ) := by
  have hq : (0:ℚ) < (n : ℚ) := by exact_mod_cast h1
  have hle : (2:ℚ) ^ Int.log 2 ((n : ℚ)) ≤ (n : ℚ) := by
    exact_mod_cast Int.zpow_log_le_self (by norm_num : (1:ℕ) < 2) hq
  have hlt : (n : ℚ) < (2:ℚ) ^ (Int.log 2 ((n : ℚ)) + 1) := by
    exact_mod_cast Int.lt_zpow_succ_log_self (by norm_num : (1:ℕ) < 2) ((n : ℚ))
  have he0 : 0 ≤ Int.log 2 ((n : ℚ)) := by
    rw [← Int.zpow_le_iff_le_log (by norm_num : (1:ℕ) < 2) hq]
    push_cast
    exact_mod_cast h1
  have he53 : Int.log 2 ((n : ℚ)) < 53 := by
    rw [← Int.lt_zpow_iff_log_lt (by norm_num : (1:ℕ) < 2) hq]
    exact_mod_cast h2
  set e : ℤ := Int.log 2 ((n : ℚ)) with hedef
  have hk : (52:ℤ) - e = ((52 - e).toNat : ℤ) := (Int.toNat_of_nonneg (by omega)).symm
  have hcast : (n : ℚ) * 2 ^ ((52:ℤ) - e) = (((n * 2 ^ (52 - e).toNat : ℤ)) : ℚ) := by
    rw [hk, zpow_natCast]
    push_cast
    rw [Int.toNat_natCast]
  have hm : roundHalfEven ((n : ℚ) * 2 ^ ((52:ℤ) - e)) = n * 2 ^ (52 - e).toNat := by
    rw [hcast, roundHalfEven_intCast]
  have := toF64_eq_of ((n : ℚ)) e (n * 2 ^ (52 - e).toNat) hq hle hlt hm
  rw [this]
  push_cast
  rw [← zpow_natCast (2:ℚ) (52 - e).toNat, ← hk, mul_assoc, ← zpow_add₀ (by norm_num : (2:ℚ) ≠ 0)]
  norm_num

theorem toF64_lit_100 : toF64 (100 : ℚ) = 100 := by
  exact_mod_cast toF64_int 100 (by norm_num) (by norm_num)

theorem toF64_lit_102 : toF64 (102 : ℚ) = 102 := by
  exact_mod_cast toF64_int 102 (by norm_num) (by norm_num)

theorem toF64_pA_eq : toF64 pA = 7205759403792794 / 2 ^ 56 := by
  have hm : roundHalfEven (pA * 2 ^ ((52:ℤ) - (-4))) = 7205759403792794 := by
    have h56 : ((52:ℤ) - (-4)) = 56 := by norm_num
    rw [h56]
    have h2 : (pA * 2 ^ (56:ℤ)) = 72057594037927936/10 := by
      rw [pA]
      norm_num
    rw [h2]
    have h := roundHalfEven_eq_of_gt (72057594037927936/10) 7205759403792793
      (by norm_num) (by norm_num)
    rw [h]
    norm_num
  have h := toF64_eq_of pA (-4) 7205759403792794 (by rw [pA]; norm_num)
    (by rw [pA]; norm_num) (by rw [pA]; norm_num) hm
  rw [h]
  norm_num

theorem toF64_pB_eq : toF64 pB = 7205759403792794 / 2 ^ 56 := by
  have hm : roundHalfEven (pB * 2 ^ ((52:ℤ) - (-4))) = 7205759403792794 := by
    have h56 : ((52:ℤ) - (-4)) = 56 := by norm_num
    rw [h56]
    have h2 : (pB * 2 ^ (56:ℤ)) = (10 ^ 21 + 1) * 72057594037927936 / 10 ^ 22 := by
      rw [pB]
      norm_num
    rw [h2]
    have h := roundHalfEven_eq_of_gt ((10 ^ 21 + 1) * 72057594037927936 / 10 ^ 22)
      7205759403792793 (by norm_num) (by norm_num)
    rw [h]
    norm_num
  have h := toF64_eq_of pB (-4) 7205759403792794 (by rw [pB]; norm_num)
    (by rw [pB]; norm_num) (by rw [pB]; norm_num) hm
  rw [h]
  norm_num

theorem mem_keyInsert {α : Type} (k : ℚ) (v : α) (l : List (ℚ × α)) (e : ℚ × α)
    (he : e ∈ keyInsert k v l) : e = (k, v) ∨ e ∈ l := by
  induction l with
  | nil => simpa [keyInsert] using he
  | cons hd t ih =>
    obtain ⟨k1, v1⟩ := hd
    by_cases h1 : k < k1
    · simp only [keyInsert, if_pos h1, List.mem_cons] at he
      rcases he with h | h | h
      · exact Or.inl h
      · exact Or.inr (by simp [h])
      · exact Or.inr (List.mem_cons_of_mem _ h)
    · by_cases h2 : k = k1
      · simp only [keyInsert, if_neg h1, if_pos h2, List.mem_cons] at he
        rcases he with h | h
        · exact Or.inl h
        · exact Or.inr (List.mem_cons_of_mem _ h)
      · simp only [keyInsert, if_neg h1, if_neg h2, List.mem_cons] at he
        rcases he with h | h
        · exact Or.inr (by simp [h])
        · rcases ih h with h3 | h3
          · exact Or.inl h3
          · exact Or.inr (List.mem_cons_of_mem _ h3)

theorem keyInsert_self_mem {α : Type} (k : ℚ) (v : α) (l : List (ℚ × α)) :
    (k, v) ∈ keyInsert k v l := by
  induction l with
  | nil => simp [keyInsert]
  | cons hd t ih =>
    obtain ⟨k1, v1⟩ := hd
    by_cases h1 : k < k1
    · simp [keyInsert, h1]
    · by_cases h2 : k = k1
      · simp [keyInsert, h1, h2]
      · simp only [keyInsert, if_neg h1, if_neg h2]
        exact List.mem_cons_of_mem _ ih

theorem keyInsert_length {α : Type} (k : ℚ) (v : α) (l : List (ℚ × α)) :
    (keyInsert k v l).length ≤ l.length + 1 := by
  induction l with
  | nil => simp [keyInsert]
  | cons hd t ih =>
    obtain ⟨k1, v1⟩ := hd
    by_cases h1 : k < k1
    · simp [keyInsert, h1]
    · by_cases h2 : k = k1
      · simp [keyInsert, h1, h2]
      · simp only [keyInsert, if_neg h1, if_neg h2, List.length_cons]
        omega

theorem mem_keyErase {α : Type} (k : ℚ) (l : List (ℚ × α)) (e : ℚ × α)
    (he : e ∈ keyErase k l) : e ∈ l := by
  induction l with
  | nil => simpa [keyErase] using he
  | cons hd t ih =>
    obtain ⟨k1, v1⟩ := hd
    by_cases h1 : k = k1
    · simp only [keyErase, if_pos h1] at he
      exact List.mem_cons_of_mem _ he
    · simp only [keyErase, if_neg h1, List.mem_cons] at he
      rcases he with h | h
      · exact by simp [h]
      · exact List.mem_cons_of_mem _ (ih h)

theorem keyErase_length_le {α : Type} (k : ℚ) (l : List (ℚ × α)) :
    (keyErase k l).length ≤ l.length := by
  induction l with
  | nil => simp [keyErase]
  | cons hd t ih =>
    obtain ⟨k1, v1⟩ := hd
    by_cases h1 : k = k1
    · simp only [keyErase, if_pos h1, List.length_cons]
      omega
    · simp only [keyErase, if_neg h1, List.length_cons]
      omega

theorem keyErase_of_not_mem {α : Type} (k : ℚ) (l : List (ℚ × α))
    (h : k ∉ l.map Prod.fst) : keyErase k l = l := by
  induction l with
  | nil => simp [keyErase]
  | cons hd t ih =>
    obtain ⟨k1, v1⟩ := hd
    simp only [List.map_cons, List.mem_cons] at h
    push_neg at h
    simp only [keyErase, if_neg h.1]
    rw [ih h.2]

theorem mem_keyErase_key_ne {α : Type} (k : ℚ) (l : List (ℚ × α))
    (hnd : (l.map Prod.fst).Nodup) (e : ℚ × α) (he : e ∈ keyErase k l) : e.1 ≠ k := by
  induction l with
  | nil => simp [keyErase] at he
  | cons hd t ih =>
    obtain ⟨k1, v1⟩ := hd
    simp only [List.map_cons, List.nodup_cons] at hnd
    by_cases h1 : k = k1
    · simp only [keyErase, if_pos h1] at he
      intro hk
      have hmem : e.1 ∈ List.map Prod.fst t := List.mem_map_of_mem Prod.fst he
      rw [hk, h1] at hmem
      exact hnd.1 hmem
    · simp only [keyErase, if_neg h1, List.mem_cons] at he
      rcases he with h | h
      · rw [h]
        exact fun hk => h1 (hk.symm)
      · exact ih hnd.2 h

theorem mem_trimBids (md : ℕ) (l : List (ℚ × PriceLevel)) (e : ℚ × PriceLevel)
    (he : e ∈ trimBids md l) : e ∈ l :=
  List.mem_of_mem_drop he

theorem mem_trimAsks (md : ℕ) (l : List (ℚ × PriceLevel)) (e : ℚ × PriceLevel)
    (he : e ∈ trimAsks md l) : e ∈ l :=
  List.mem_of_mem_take he

theorem trimBids_of_le (md : ℕ) (l : List (ℚ × PriceLevel)) (h : l.length ≤ md) :
    trimBids md l = l := by
  unfold trimBids
  rw [Nat.sub_eq_zero_of_le h, List.drop_zero]

theorem trimAsks_of_le (md : ℕ) (l : List (ℚ × PriceLevel)) (h : l.length ≤ md) :
    trimAsks md l = l :=
  List.take_of_length_le h

/-- C3, counterexample: applying `snapEx` to an empty book twice leaves the
sequence counter exactly where one application left it (both applications set
it to the snapshot's sequence), so the sequence does not advance strictly on
the repeated application as the claim states. -/
theorem snapshot_seq_not_advancing :
    ¬ ((snapEx.apply_to_book emptyBook 0).sequence
        < (snapEx.apply_to_book (snapEx.apply_to_book emptyBook 0) 0).sequence) := by
  simp [OrderBookSnapshot.apply_to_book]

/-- C3, amended: applying the same `OrderBookSnapshot` twice in succession
yields a book state identical to applying it once — same levels, same
checksum, and also the same sequence counter, because `apply_to_book`
overwrites the sequence with the snapshot's sequence instead of advancing
it. -/
theorem snapshot_apply_idem (s : OrderBookSnapshot) (b : FastOrderBook)
    (now1 now2 : ℚ) :
    s.apply_to_book (s.apply_to_book b now1) now2 = s.apply_to_book b now1
    ∧ (s.apply_to_book (s.apply_to_book b now1) now2).calculate_checksum
        = (s.apply_to_book b now1).calculate_checksum
    ∧ (s.apply_to_book (s.apply_to_book b now1) now2).sequence
        = (s.apply_to_book b now1).sequence := by
  refine ⟨?_, ?_, ?_⟩ <;> rfl

/-- C5, counterexample: a book whose best bid and best ask both sit at price
100 is crossed (`is_crossed` is true because best bid ≥ best ask), yet the
ordering `best_bid ≤ mid_price ≤ best_ask` still holds — so a crossed book is
not "exactly" the condition under which the ordering fails. -/
theorem crossed_equal_price_counterexample :
    equalBook.is_crossed = true
    ∧ equalBook.best_bid_price = some 100
    ∧ equalBook.mid_price = some 100
    ∧ equalBook.best_ask_price = some 100 := by
  norm_num [equalBook, FastOrderBook.new, FastOrderBook.update_bid,
    FastOrderBook.update_ask, FastOrderBook.best_bid_price, FastOrderBook.best_ask_price,
    FastOrderBook.best_bid, FastOrderBook.best_ask, FastOrderBook.mid_price,
    FastOrderBook.is_crossed, keyInsert, trimBids, trimAsks, PriceLevel.with_order_count]

/-- C5, amended: for a book with both sides non-empty, if the book is not
crossed then `best_bid ≤ mid_price ≤ best_ask`, and the ordering can only
fail when `is_crossed` is true (but a crossed book with best bid equal to
best ask still satisfies the ordering). -/
theorem mid_price_between (b : FastOrderBook) (bid mid ask : ℚ)
    (hb : b.best_bid_price = some bid) (ha : b.best_ask_price = some ask)
    (hm : b.mid_price = some mid) :
    (b.is_crossed = false → bid ≤ mid ∧ mid ≤ ask)
    ∧ (¬ (bid ≤ mid ∧ mid ≤ ask) → b.is_crossed = true) := by
  have hmid : mid = (bid + ask) / 2 := by
    unfold FastOrderBook.mid_price at hm
    rw [hb, ha] at hm
    simpa using hm.symm
  have hcross : b.is_crossed = decide (ask ≤ bid) := by
    unfold FastOrderBook.is_crossed
    rw [hb, ha]
  constructor
  · intro hc
    rw [hcross, decide_eq_false_iff_not] at hc
    push_neg at hc
    constructor
    · rw [hmid]; linarith
    · rw [hmid]; linarith
  · intro hno
    rw [hcross, decide_eq_true_eq]
    by_contra hnot
    push_neg at hnot
    exact hno ⟨by rw [hmid]; linarith, by rw [hmid]; linarith⟩

/-- C5, witness: the amended theorem applied to the concrete uncrossed book
with bid 100 and ask 101. -/
theorem mid_price_between_witness :
    smallBook.best_bid_price = some 100 ∧ smallBook.best_ask_price = some 101
    ∧ smallBook.mid_price = some (201/2)
    ∧ ((smallBook.is_crossed = false → (100:ℚ) ≤ 201/2 ∧ (201/2:ℚ) ≤ 101)
       ∧ (¬ ((100:ℚ) ≤ 201/2 ∧ (201/2:ℚ) ≤ 101) → smallBook.is_crossed = true)) := by
  have h1 : smallBook.best_bid_price = some 100 := by
    norm_num [smallBook, FastOrderBook.new, FastOrderBook.update_bid,
      FastOrderBook.update_ask, FastOrderBook.best_bid_price, FastOrderBook.best_bid,
      keyInsert, trimBids, trimAsks, PriceLevel.with_order_count]
  have h2 : smallBook.best_ask_price = some 101 := by
    norm_num [smallBook, FastOrderBook.new, FastOrderBook.update_bid,
      FastOrderBook.update_ask, FastOrderBook.best_ask_price, FastOrderBook.best_ask,
      keyInsert, trimBids, trimAsks, PriceLevel.with_order_count]
  have h3 : smallBook.mid_price = some (201/2) := by
    unfold FastOrderBook.mid_price
    rw [h1, h2]
    norm_num
  exact ⟨h1, h2, h3, mid_price_between smallBook 100 (201/2) 101 h1 h2 h3⟩

/-- C4, counterexample: updating a bid with negative quantity -1 mutates the
book — a level carrying quantity -1 is inserted and the previously empty bid
side becomes non-empty — and `update_bid` returns no error value at all, so
the malformed input is not rejected at the update boundary. -/
theorem update_negative_counterexample :
    ((FastOrderBook.new symBTC none 0).update_bid 100 (-1) none 0).bids
      = [(toF64 100, PriceLevel.with_order_count 100 (-1) 1 0)]
    ∧ (FastOrderBook.new symBTC none 0).bids = [] := by
  constructor
  · norm_num [FastOrderBook.new, FastOrderBook.update_bid, keyInsert, trimBids,
      PriceLevel.with_order_count]
  · rfl

/-- C4, amended: the update boundary performs no validation. An update with
negative quantity inserts the level carrying that negative quantity and
advances the sequence counter, informing the caller of nothing; rejection
with an error identifying the failing field exists only in the helpers
`validate_quantity` and `validate_price`, which the book update path never
invokes. -/
theorem update_bid_no_validation (b : FastOrderBook) (p q : ℚ) (c : Option ℕ)
    (now : ℚ) (hq : q < 0) (hroom : b.bids.length < b.max_depth) :
    (toF64 p, PriceLevel.with_order_count p q (c.getD 1) now) ∈ (b.update_bid p q c now).bids
    ∧ (b.update_bid p q c now).sequence = (b.sequence + 1) % 2 ^ 64
    ∧ validate_quantity q
        = Except.error (ArbFinderError.InvalidData ("Quantity must be positive"))
    ∧ (p < 0 → validate_price p
        = Except.error (ArbFinderError.InvalidData ("Price must be positive"))) := by
  have hq0 : ¬ (q = 0) := ne_of_lt hq
  refine ⟨?_, rfl, ?_, ?_⟩
  · simp only [FastOrderBook.update_bid, if_neg hq0]
    have hlen : (keyInsert (toF64 p) (PriceLevel.with_order_count p q (c.getD 1) now)
        b.bids).length ≤ b.max_depth :=
      le_trans (keyInsert_length _ _ _) (by omega)
    rw [trimBids_of_le _ _ hlen]
    exact keyInsert_self_mem _ _ _
  · unfold validate_quantity
    rw [if_pos (le_of_lt hq)]
  · intro hp
    unfold validate_price
    rw [if_pos (le_of_lt hp)]

/-- C4, witness: the no-validation theorem applied to an empty book and a bid
update at price 100 with quantity -1. -/
theorem update_bid_no_validation_witness :
    ((-1 : ℚ) < 0 ∧ (FastOrderBook.new symBTC none 0).bids.length
        < (FastOrderBook.new symBTC none 0).max_depth)
    ∧ ((toF64 100, PriceLevel.with_order_count 100 (-1) ((none : Option ℕ).getD 1) 0)
          ∈ ((FastOrderBook.new symBTC none 0).update_bid 100 (-1) none 0).bids
        ∧ ((FastOrderBook.new symBTC none 0).update_bid 100 (-1) none 0).sequence
          = ((FastOrderBook.new symBTC none 0).sequence + 1) % 2 ^ 64
        ∧ validate_quantity (-1)
          = Except.error (ArbFinderError.InvalidData ("Quantity must be positive"))
        ∧ ((100 : ℚ) < 0 → validate_price 100
          = Except.error (ArbFinderError.InvalidData ("Price must be positive")))) :=
  ⟨⟨by norm_num, by norm_num [FastOrderBook.new]⟩,
    update_bid_no_validation (FastOrderBook.new symBTC none 0) 100 (-1) none 0
      (by norm_num) (by norm_num [FastOrderBook.new])⟩

/-- C6, counterexample: `replace_bids` copies snapshot levels verbatim, so
replacing the bid side of an empty book with a list containing a
zero-quantity level stores that zero-quantity level — a reachable book state
violating the strictly-positive-quantity invariant. -/
theorem zero_qty_level_stored_counterexample :
    ¬ posQty ((FastOrderBook.new symBTC none 0).replace_bids
        [{ price := 100, quantity := 0, order_count := 1, last_updated := 0 }] 0).bids := by
  intro h
  have hmem : (toF64 100,
      ({ price := 100, quantity := 0, order_count := 1, last_updated := 0 } : PriceLevel))
      ∈ ((FastOrderBook.new symBTC none 0).replace_bids
        [{ price := 100, quantity := 0, order_count := 1, last_updated := 0 }] 0).bids := by
    simp [FastOrderBook.new, FastOrderBook.replace_bids, keyInsert, trimBids]
  have hq := h _ hmem
  norm_num at hq

theorem posQty_update_bid (b : FastOrderBook) (p q : ℚ) (c : Option ℕ) (now : ℚ)
    (hb : posQty b.bids) (ha : posQty b.asks) (hq : 0 ≤ q) :
    posQty (b.update_bid p q c now).bids ∧ posQty (b.update_bid p q c now).asks := by
  constructor
  · intro e he
    simp only [FastOrderBook.update_bid] at he
    by_cases h0 : q = 0
    · rw [if_pos h0] at he
      exact hb e (mem_keyErase _ _ _ (mem_trimBids _ _ _ he))
    · rw [if_neg h0] at he
      rcases mem_keyInsert _ _ _ _ (mem_trimBids _ _ _ he) with h | h
      · rw [h]
        exact lt_of_le_of_ne hq (Ne.symm h0)
      · exact hb e h
  · intro e he
    exact ha e he

theorem posQty_update_ask (b : FastOrderBook) (p q : ℚ) (c : Option ℕ) (now : ℚ)
    (hb : posQty b.bids) (ha : posQty b.asks) (hq : 0 ≤ q) :
    posQty (b.update_ask p q c now).bids ∧ posQty (b.update_ask p q c now).asks := by
  constructor
  · intro e he
    exact hb e he
  · intro e he
    simp only [FastOrderBook.update_ask] at he
    by_cases h0 : q = 0
    · rw [if_pos h0] at he
      exact ha e (mem_keyErase _ _ _ (mem_trimAsks _ _ _ he))
    · rw [if_neg h0] at he
      rcases mem_keyInsert _ _ _ _ (mem_trimAsks _ _ _ he) with h | h
      · rw [h]
        exact lt_of_le_of_ne hq (Ne.symm h0)
      · exact ha e h

theorem mem_foldl_keyInsert (ls : List PriceLevel) (init : List (ℚ × PriceLevel))
    (e : ℚ × PriceLevel)
    (he : e ∈ ls.foldl (fun acc level => keyInsert (toF64 level.price) level acc) init) :
    e ∈ init ∨ ∃ level ∈ ls, e = (toF64 level.price, level) := by
  induction ls generalizing init with
  | nil => exact Or.inl (by simpa using he)
  | cons hd t ih =>
    simp only [List.foldl_cons] at he
    rcases ih _ he with h | h
    · rcases mem_keyInsert _ _ _ _ h with h2 | h2
      · exact Or.inr ⟨hd, by simp, h2⟩
      · exact Or.inl h2
    · rcases h with ⟨lv, hlv, he2⟩
      exact Or.inr ⟨lv, List.mem_cons_of_mem _ hlv, he2⟩

theorem posQty_replace_bids (b : FastOrderBook) (ls : List PriceLevel) (now : ℚ)
    (ha : posQty b.asks) (hls : ∀ level ∈ ls, 0 < level.quantity) :
    posQty (b.replace_bids ls now).bids ∧ posQty (b.replace_bids ls now).asks := by
  constructor
  · intro e he
    simp only [FastOrderBook.replace_bids] at he
    rcases mem_foldl_keyInsert _ _ _ (mem_trimBids _ _ _ he) with h | ⟨lv, hlv, he2⟩
    · simp at h
    · rw [he2]
      exact hls lv hlv
  · intro e he
    exact ha e he

theorem posQty_replace_asks (b : FastOrderBook) (ls : List PriceLevel) (now : ℚ)
    (hb : posQty b.bids) (hls : ∀ level ∈ ls, 0 < level.quantity) :
    posQty (b.replace_asks ls now).bids ∧ posQty (b.replace_asks ls now).asks := by
  constructor
  · intro e he
    exact hb e he
  · intro e he
    simp only [FastOrderBook.replace_asks] at he
    rcases mem_foldl_keyInsert _ _ _ (mem_trimAsks _ _ _ he) with h | ⟨lv, hlv, he2⟩
    · simp at h
    · rw [he2]
      exact hls lv hlv

theorem posQty_batch_update (b : FastOrderBook) (us : List OrderBookUpdate) (now : ℚ)
    (hb : posQty b.bids) (ha : posQty b.asks) (hus : ∀ u ∈ us, 0 ≤ u.quantity) :
    posQty (b.batch_update us now).bids ∧ posQty (b.batch_update us now).asks := by
  induction us generalizing b with
  | nil => exact ⟨hb, ha⟩
  | cons hd t ih =>
    have hhd : 0 ≤ hd.quantity := hus hd (List.mem_cons_self _ _)
    have htail : ∀ u ∈ t, 0 ≤ u.quantity := fun u hu => hus u (List.mem_cons_of_mem _ hu)
    cases hside : hd.side with
    | Bid =>
      have hstep := posQty_update_bid b hd.price hd.quantity hd.order_count now hb ha hhd
      have hrest := ih (b.update_bid hd.price hd.quantity hd.order_count now)
        hstep.1 hstep.2 htail
      simpa [FastOrderBook.batch_update, hside] using hrest
    | Ask =>
      have hstep := posQty_update_ask b hd.price hd.quantity hd.order_count now hb ha hhd
      have hrest := ih (b.update_ask hd.price hd.quantity hd.order_count now)
        hstep.1 hstep.2 htail
      simpa [FastOrderBook.batch_update, hside] using hrest

theorem posQty_apply (b : FastOrderBook) (op : BookOp) (hb : posQty b.bids)
    (ha : posQty b.asks) (hop : op.wf) :
    posQty (BookOp.apply b op).bids ∧ posQty (BookOp.apply b op).asks := by
  cases op with
  | updateBid p q c now => exact posQty_update_bid b p q c now hb ha hop
  | updateAsk p q c now => exact posQty_update_ask b p q c now hb ha hop
  | batchUpdate us now => exact posQty_batch_update b us now hb ha hop
  | replaceBids ls now => exact posQty_replace_bids b ls now ha hop
  | replaceAsks ls now => exact posQty_replace_asks b ls now hb hop

theorem posQty_applyOps (b : FastOrderBook) (ops : List BookOp) (hb : posQty b.bids)
    (ha : posQty b.asks) (hwf : ∀ op ∈ ops, op.wf) :
    posQty (applyOps b ops).bids ∧ posQty (applyOps b ops).asks := by
  induction ops generalizing b with
  | nil => exact ⟨hb, ha⟩
  | cons hd t ih =>
    have hstep := posQty_apply b hd hb ha (hwf hd (List.mem_cons_self _ _))
    have hrest := ih (BookOp.apply b hd) hstep.1 hstep.2
      (fun op hop => hwf op (List.mem_cons_of_mem _ hop))
    simpa [applyOps] using hrest

/-- C6, amended: in every book state reachable from an empty book by update
operations with nonnegative quantities and replace operations whose level
lists contain only strictly positive quantities, every stored price level has
strictly positive quantity.  (The restriction is forced: an update with
negative quantity stores the negative level, and a replace stores snapshot
levels verbatim, zero quantities included.) -/
theorem positive_quantity_invariant (sym : Symbol) (md : Option ℕ) (now : ℚ)
    (ops : List BookOp) (hwf : ∀ op ∈ ops, op.wf) :
    posQty (applyOps (FastOrderBook.new sym md now) ops).bids
    ∧ posQty (applyOps (FastOrderBook.new sym md now) ops).asks :=
  posQty_applyOps _ ops (by intro e he; simp [FastOrderBook.new] at he)
    (by intro e he; simp [FastOrderBook.new] at he) hwf

/-- C6, witness: the invariant theorem applied to a concrete well-formed
operation sequence (insert a bid, delete it, snapshot-replace with a positive
level). -/
theorem positive_quantity_invariant_witness :
    (∀ op ∈ opsEx, op.wf)
    ∧ (posQty (applyOps (FastOrderBook.new symBTC none 0) opsEx).bids
       ∧ posQty (applyOps (FastOrderBook.new symBTC none 0) opsEx).asks) := by
  have hwf : ∀ op ∈ opsEx, op.wf := by
    intro op hop
    simp only [opsEx, List.mem_cons, List.not_mem_nil, or_false] at hop
    rcases hop with h | h | h <;> rw [h] <;> norm_num [BookOp.wf]
  exact ⟨hwf, positive_quantity_invariant symBTC none 0 opsEx hwf⟩

theorem update_bid_zero_bids (b : FastOrderBook) (P : ℚ) (c : Option ℕ) (now : ℚ) :
    (b.update_bid P 0 c now).bids = trimBids b.max_depth (keyErase (toF64 P) b.bids) := by
  simp [FastOrderBook.update_bid]

theorem update_ask_zero_asks (b : FastOrderBook) (P : ℚ) (c : Option ℕ) (now : ℚ) :
    (b.update_ask P 0 c now).asks = trimAsks b.max_depth (keyErase (toF64 P) b.asks) := by
  simp [FastOrderBook.update_ask]

/-- C7, amended: applying a quantity-0 update for price P deletes absolutely —
the side's best level afterwards is never at price P — and when the `f64` key
of P (the map is keyed by the binary64 image of the price, not by the decimal
price itself) was not present, the update leaves both sides' contents
unchanged while still advancing the sequence counter by exactly one
(`wrapping_add(1)`).  Key absence, not decimal-price absence, is the correct
condition: a quantity-0 update at a price that is absent as a decimal but
aliases a stored price's key deletes that aliased level (see the
counterexample).  The hypotheses state well-formedness facts true of every
book the code builds: keys are the `f64` images of the stored prices, keys
are duplicate-free, and neither side exceeds the configured maximum depth. -/
theorem zero_qty_update_spec (b : FastOrderBook) (P : ℚ) (c : Option ℕ) (now : ℚ)
    (hbk : keysWF b.bids) (hak : keysWF b.asks)
    (hbn : (b.bids.map Prod.fst).Nodup) (han : (b.asks.map Prod.fst).Nodup)
    (hbd : b.bids.length ≤ b.max_depth) (had : b.asks.length ≤ b.max_depth) :
    (∀ level, (b.update_bid P 0 c now).best_bid = some level → level.price ≠ P)
    ∧ (∀ level, (b.update_ask P 0 c now).best_ask = some level → level.price ≠ P)
    ∧ (toF64 P ∉ b.bids.map Prod.fst →
        (b.update_bid P 0 c now).bids = b.bids
        ∧ (b.update_bid P 0 c now).asks = b.asks
        ∧ (b.update_bid P 0 c now).sequence = (b.sequence + 1) % 2 ^ 64
        ∧ (b.sequence + 1 < 2 ^ 64 → (b.update_bid P 0 c now).sequence = b.sequence + 1))
    ∧ (toF64 P ∉ b.asks.map Prod.fst →
        (b.update_ask P 0 c now).asks = b.asks
        ∧ (b.update_ask P 0 c now).bids = b.bids
        ∧ (b.update_ask P 0 c now).sequence = (b.sequence + 1) % 2 ^ 64) := by
  refine ⟨?_, ?_, ?_, ?_⟩
  · intro level hlevel hP
    rw [FastOrderBook.best_bid, update_bid_zero_bids] at hlevel
    rcases Option.map_eq_some'.mp hlevel with ⟨e, hge, he2⟩
    have hmem := mem_trimBids _ _ _ (List.mem_of_getLast?_eq_some hge)
    have hne := mem_keyErase_key_ne _ _ hbn e hmem
    have hkey := hbk e (mem_keyErase _ _ _ hmem)
    exact hne (by rw [hkey, he2, hP])
  · intro level hlevel hP
    rw [FastOrderBook.best_ask, update_ask_zero_asks] at hlevel
    rcases Option.map_eq_some'.mp hlevel with ⟨e, hge, he2⟩
    have hmem := mem_trimAsks _ _ _ (List.mem_of_mem_head? hge)
    have hne := mem_keyErase_key_ne _ _ han e hmem
    have hkey := hak e (mem_keyErase _ _ _ hmem)
    exact hne (by rw [hkey, he2, hP])
  · intro hnot
    refine ⟨?_, rfl, rfl, ?_⟩
    · rw [update_bid_zero_bids, keyErase_of_not_mem _ _ hnot, trimBids_of_le _ _ hbd]
    · intro h64
      show (b.sequence + 1) % 2 ^ 64 = b.sequence + 1
      exact Nat.mod_eq_of_lt h64
  · intro hnot
    refine ⟨?_, rfl, rfl⟩
    rw [update_ask_zero_asks, keyErase_of_not_mem _ _ hnot, trimAsks_of_le _ _ had]

/-- C7, witness: the deletion spec applied to the concrete book `smallBook`
(bid at 100, ask at 101) with the absent price 102. -/
theorem zero_qty_update_spec_witness :
    (keysWF smallBook.bids ∧ keysWF smallBook.asks
      ∧ (smallBook.bids.map Prod.fst).Nodup ∧ (smallBook.asks.map Prod.fst).Nodup
      ∧ smallBook.bids.length ≤ smallBook.max_depth
      ∧ smallBook.asks.length ≤ smallBook.max_depth)
    ∧ ((∀ level, (smallBook.update_bid 102 0 none 7).best_bid = some level → level.price ≠ 102)
      ∧ (∀ level, (smallBook.update_ask 102 0 none 7).best_ask = some level → level.price ≠ 102)
      ∧ (toF64 102 ∉ smallBook.bids.map Prod.fst →
          (smallBook.update_bid 102 0 none 7).bids = smallBook.bids
          ∧ (smallBook.update_bid 102 0 none 7).asks = smallBook.asks
          ∧ (smallBook.update_bid 102 0 none 7).sequence = (smallBook.sequence + 1) % 2 ^ 64
          ∧ (smallBook.sequence + 1 < 2 ^ 64 →
              (smallBook.update_bid 102 0 none 7).sequence = smallBook.sequence + 1))
      ∧ (toF64 102 ∉ smallBook.asks.map Prod.fst →
          (smallBook.update_ask 102 0 none 7).asks = smallBook.asks
          ∧ (smallBook.update_ask 102 0 none 7).bids = smallBook.bids
          ∧ (smallBook.update_ask 102 0 none 7).sequence = (smallBook.sequence + 1) % 2 ^ 64)) := by
  have hbids : smallBook.bids = [(toF64 100, PriceLevel.with_order_count 100 1 1 0)] := by
    norm_num [smallBook, FastOrderBook.new, FastOrderBook.update_bid,
      FastOrderBook.update_ask, keyInsert, trimBids, trimAsks]
  have hasks : smallBook.asks = [(toF64 101, PriceLevel.with_order_count 101 2 1 0)] := by
    norm_num [smallBook, FastOrderBook.new, FastOrderBook.update_bid,
      FastOrderBook.update_ask, keyInsert, trimBids, trimAsks]
  have hmd : smallBook.max_depth = 1000 := by
    norm_num [smallBook, FastOrderBook.new, FastOrderBook.update_bid,
      FastOrderBook.update_ask]
  have hbk : keysWF smallBook.bids := by
    intro e he
    rw [hbids] at he
    simp only [List.mem_singleton] at he
    rw [he]
    rfl
  have hak : keysWF smallBook.asks := by
    intro e he
    rw [hasks] at he
    simp only [List.mem_singleton] at he
    rw [he]
    rfl
  have hbn : (smallBook.bids.map Prod.fst).Nodup := by
    rw [hbids]
    simp
  have han : (smallBook.asks.map Prod.fst).Nodup := by
    rw [hasks]
    simp
  have hbd : smallBook.bids.length ≤ smallBook.max_depth := by
    rw [hbids, hmd]
    norm_num
  have had : smallBook.asks.length ≤ smallBook.max_depth := by
    rw [hasks, hmd]
    norm_num
  exact ⟨⟨hbk, hak, hbn, han, hbd, had⟩,
    zero_qty_update_spec smallBook 102 none 7 hbk hak hbn han hbd had⟩

/-- C7, counterexample: the book `aliasBook` stores exactly one bid level and
its price field is `pA`, which differs from `pB` — so no level at price `pB`
is present in the book — yet the quantity-0 update at `pB` is not a no-op on
the book's contents: it empties the bid side, because `update_bid` removes by
the `f64` key `toF64 pB`, which `pA`'s level occupies.  "P was not present"
therefore does not make the deletion a no-op as the claim states. -/
theorem zero_qty_noop_counterexample :
    aliasBook.bids = [(toF64 pA, PriceLevel.with_order_count pA 5 1 0)]
    ∧ pA ≠ pB
    ∧ (aliasBook.update_bid pB 0 none 1).bids = [] := by
  have hmd : aliasBook.max_depth = 1000 := by
    norm_num [aliasBook, FastOrderBook.new, FastOrderBook.update_bid]
  have hA : aliasBook.bids = [(toF64 pA, PriceLevel.with_order_count pA 5 1 0)] := by
    norm_num [aliasBook, FastOrderBook.new, FastOrderBook.update_bid, keyInsert,
      trimBids, pA]
  refine ⟨hA, by norm_num [pA, pB], ?_⟩
  rw [update_bid_zero_bids, hA, hmd, toF64_pA_eq, toF64_pB_eq]
  norm_num [keyErase, trimBids]

theorem update_bid_pos_bids (b : FastOrderBook) (P q : ℚ) (c : Option ℕ) (now : ℚ)
    (hq : ¬ (q = 0)) :
    (b.update_bid P q c now).bids
      = trimBids b.max_depth
          (keyInsert (toF64 P) (PriceLevel.with_order_count P q (c.getD 1) now) b.bids) := by
  simp [FastOrderBook.update_bid, hq]

/-- C10: price levels are keyed by the binary64 image of the decimal price,
not by the decimal price itself.  The distinct decimal prices
`pA = 0.1` (mantissa 1, scale 1) and `pB = 0.1000000000000000000001`
(mantissa `10^21 + 1`, scale 22) have the same `f64` image, so after
inserting a level at `pA`, an update at `pB` overwrites that level (the book
holds one level after two distinct decimal prices were inserted, and the
stored price field changes to `pB`), and a quantity-0 update at `pB` deletes
the level whose stored price field is `pA`. -/
theorem f64_key_aliasing :
    pA ≠ pB
    ∧ toF64 pA = toF64 pB
    ∧ aliasBook.bids = [(toF64 pA, PriceLevel.with_order_count pA 5 1 0)]
    ∧ (aliasBook.update_bid pB 7 none 1).bids
        = [(toF64 pA, PriceLevel.with_order_count pB 7 1 1)]
    ∧ (aliasBook.update_bid pB 7 none 1).bids.length = 1
    ∧ (aliasBook.update_bid pB 0 none 1).bids = [] := by
  have hmd : aliasBook.max_depth = 1000 := by
    norm_num [aliasBook, FastOrderBook.new, FastOrderBook.update_bid]
  have hA : aliasBook.bids = [(toF64 pA, PriceLevel.with_order_count pA 5 1 0)] := by
    norm_num [aliasBook, FastOrderBook.new, FastOrderBook.update_bid, keyInsert,
      trimBids, pA]
  have hB : (aliasBook.update_bid pB 7 none 1).bids
      = [(toF64 pA, PriceLevel.with_order_count pB 7 1 1)] := by
    rw [update_bid_pos_bids _ _ _ _ _ (by norm_num : ¬ ((7:ℚ) = 0)), hA, hmd,
      toF64_pA_eq, toF64_pB_eq]
    norm_num [keyInsert, trimBids]
  refine ⟨by norm_num [pA, pB], by rw [toF64_pA_eq, toF64_pB_eq], hA, hB, ?_, ?_⟩
  · rw [hB]
    rfl
  · rw [update_bid_zero_bids, hA, hmd, toF64_pA_eq, toF64_pB_eq]
    norm_num [keyErase, trimBids]

theorem check_unfold (d : CrossExchangeArbitrageDetector) (sym : Symbol)
    (bv sv : VenueId) (bb sb : OrderBook) (now : ℚ) (a b2 : OrderBookLevel)
    (hba : bb.best_ask = some a) (hbb : sb.best_bid = some b2) :
    d.check_arbitrage_direction sym bv sv bb sb now =
      (if b2.price ≤ a.price then none
       else if d.net_profit_bps bv sv a.price b2.price < d.min_profit_threshold then none
       else if min a.quantity b2.quantity * a.price < d.min_volume_threshold then none
       else some { symbol := sym, buy_venue := bv, sell_venue := sv,
                   buy_price := a.price, sell_price := b2.price,
                   profit_percentage := d.net_profit_bps bv sv a.price b2.price / 10000,
                   max_volume := min a.quantity b2.quantity,
                   estimated_profit :=
                     (b2.price - a.price - a.price * d.effective_fee bv
                       - b2.price * d.effective_fee sv) * min a.quantity b2.quantity,
                   timestamp := now }) := by
  simp only [CrossExchangeArbitrageDetector.check_arbitrage_direction, hba, hbb]

/-- C1: `check_arbitrage_direction` returns an opportunity iff the buy book's
best ask and the sell book's best bid both exist, sell price > buy price, the
net profit in bps — `((sell − buy)/buy)·10000 − (buy_fee + sell_fee)·10000` —
is at least the minimum-profit threshold, and
`min(ask quantity, bid quantity) · buy price` is at least the minimum-volume
threshold; the returned opportunity's quantity is
`min(ask quantity, bid quantity)` and its estimated profit is
`(sell − buy − buy·buy_fee − sell·sell_fee) · quantity`.  The positivity
hypothesis keeps the statement inside the domain where `Decimal` division is
defined (a zero buy price would make the Rust division panic). -/
theorem check_arbitrage_direction_correct (d : CrossExchangeArbitrageDetector)
    (sym : Symbol) (bv sv : VenueId) (bb sb : OrderBook) (now : ℚ)
    (hpos : ∀ a, bb.best_ask = some a → 0 < a.price) :
    ((∃ o, d.check_arbitrage_direction sym bv sv bb sb now = some o) ↔
      (∃ a b2, bb.best_ask = some a ∧ sb.best_bid = some b2 ∧ a.price < b2.price
        ∧ d.min_profit_threshold ≤
            ((b2.price - a.price) / a.price) * 10000
              - (d.effective_fee bv + d.effective_fee sv) * 10000
        ∧ d.min_volume_threshold ≤ min a.quantity b2.quantity * a.price))
    ∧ (∀ o, d.check_arbitrage_direction sym bv sv bb sb now = some o →
        ∃ a b2, bb.best_ask = some a ∧ sb.best_bid = some b2
          ∧ o.max_volume = min a.quantity b2.quantity
          ∧ o.estimated_profit =
              (b2.price - a.price - a.price * d.effective_fee bv
                - b2.price * d.effective_fee sv) * min a.quantity b2.quantity) := by
  cases hba : bb.best_ask with
  | none =>
    refine ⟨⟨?_, ?_⟩, ?_⟩
    · rintro ⟨o, ho⟩
      simp [CrossExchangeArbitrageDetector.check_arbitrage_direction, hba] at ho
    · rintro ⟨a, b2, haa, _⟩
      exact Option.noConfusion haa
    · intro o ho
      simp [CrossExchangeArbitrageDetector.check_arbitrage_direction, hba] at ho
  | some a =>
    cases hbb : sb.best_bid with
    | none =>
      refine ⟨⟨?_, ?_⟩, ?_⟩
      · rintro ⟨o, ho⟩
        simp [CrossExchangeArbitrageDetector.check_arbitrage_direction, hba, hbb] at ho
      · rintro ⟨a2, b2, _, hbb2, _⟩
        exact Option.noConfusion hbb2
      · intro o ho
        simp [CrossExchangeArbitrageDetector.check_arbitrage_direction, hba, hbb] at ho
    | some b2 =>
      rw [check_unfold d sym bv sv bb sb now a b2 hba hbb]
      refine ⟨⟨?_, ?_⟩, ?_⟩
      · rintro ⟨o, ho⟩
        split_ifs at ho with h1 h2 h3
        refine ⟨a, b2, rfl, rfl, not_le.mp h1, ?_, not_lt.mp h3⟩
        have h2' := not_lt.mp h2
        simpa [CrossExchangeArbitrageDetector.net_profit_bps] using h2'
      · rintro ⟨a2, b22, ha2, hb22, hlt, hnet, hvol⟩
        obtain rfl : a = a2 := Option.some.inj ha2
        obtain rfl : b2 = b22 := Option.some.inj hb22
        rw [if_neg (not_le.mpr hlt), if_neg ?hnet, if_neg (not_lt.mpr hvol)]
        · exact ⟨_, rfl⟩
        case hnet =>
          rw [not_lt]
          simpa [CrossExchangeArbitrageDetector.net_profit_bps] using hnet
      · intro o ho
        split_ifs at ho with h1 h2 h3
        obtain rfl := (Option.some.inj ho)
        exact ⟨a, b2, rfl, rfl, rfl, rfl⟩

/-- C1, witness: the characterization applied to the concrete detector with
default fees and the wide-spread pair of books (ask 100 qty 2, bid 110
qty 2). -/
theorem check_arbitrage_direction_correct_witness :
    (∀ a, wideBuyBook.best_ask = some a → 0 < a.price)
    ∧ (((∃ o, defaultDet.check_arbitrage_direction symBTC VenueId.Binance VenueId.Coinbase
            wideBuyBook wideSellBook 0 = some o) ↔
        (∃ a b2, wideBuyBook.best_ask = some a ∧ wideSellBook.best_bid = some b2
          ∧ a.price < b2.price
          ∧ defaultDet.min_profit_threshold ≤
              ((b2.price - a.price) / a.price) * 10000
                - (defaultDet.effective_fee VenueId.Binance
                    + defaultDet.effective_fee VenueId.Coinbase) * 10000
          ∧ defaultDet.min_volume_threshold ≤ min a.quantity b2.quantity * a.price))
      ∧ (∀ o, defaultDet.check_arbitrage_direction symBTC VenueId.Binance VenueId.Coinbase
            wideBuyBook wideSellBook 0 = some o →
          ∃ a b2, wideBuyBook.best_ask = some a ∧ wideSellBook.best_bid = some b2
            ∧ o.max_volume = min a.quantity b2.quantity
            ∧ o.estimated_profit =
                (b2.price - a.price - a.price * defaultDet.effective_fee VenueId.Binance
                  - b2.price * defaultDet.effective_fee VenueId.Coinbase)
                  * min a.quantity b2.quantity)) := by
  have hpos : ∀ a, wideBuyBook.best_ask = some a → 0 < a.price := by
    intro a ha
    have h : wideBuyBook.best_ask = some { price := 100, quantity := 2, timestamp := 0 } := by
      norm_num [wideBuyBook, OrderBook.new, OrderBook.update_ask, OrderBook.best_ask,
        keyInsert]
    obtain rfl := Option.some.inj (h.symm.trans ha)
    norm_num
  exact ⟨hpos, check_arbitrage_direction_correct defaultDet symBTC VenueId.Binance
    VenueId.Coinbase wideBuyBook wideSellBook 0 hpos⟩

theorem feesGet_feesInsert (v : VenueId) (fee : ℚ) (l : List (VenueId × ℚ))
    (w : VenueId) :
    feesGet (feesInsert v fee l) w = if v = w then some fee else feesGet l w := by
  induction l with
  | nil =>
    by_cases h : v = w <;> simp [feesInsert, feesGet, h]
  | cons hd t ih =>
    obtain ⟨v1, f1⟩ := hd
    by_cases h1 : v1 = v
    · subst h1
      simp only [feesInsert, if_pos rfl]
      by_cases h2 : v1 = w <;> simp [feesGet, h2]
    · simp only [feesInsert, if_neg h1]
      by_cases h2 : v1 = w
      · subst h2
        have hvw : ¬ (v = v1) := fun h => h1 h.symm
        simp [feesGet, hvw]
      · simp [feesGet, h2, ih]

theorem effective_fee_set (d : CrossExchangeArbitrageDetector) (v : VenueId)
    (fee : ℚ) (w : VenueId) :
    (d.set_trading_fee v fee).effective_fee w
      = if v = w then fee else d.effective_fee w := by
  simp only [CrossExchangeArbitrageDetector.set_trading_fee,
    CrossExchangeArbitrageDetector.effective_fee, feesGet_feesInsert]
  by_cases h : v = w <;> simp [h]

/-- C8: raising a venue's configured fee through `set_trading_fee` never
increases the reported net profit: the computed net-profit-bps is pointwise
non-increasing in the venue's fee rate, and whenever the detector with the
raised fee still reports an opportunity for a direction, the original
detector reports one for the same direction whose `profit_percentage` (the
net-profit-bps divided by 10000) is at least as large. -/
theorem fee_monotonicity (d : CrossExchangeArbitrageDetector) (v : VenueId)
    (fee : ℚ) (hfee : d.effective_fee v ≤ fee) (sym : Symbol) (bv sv : VenueId)
    (bb sb : OrderBook) (now : ℚ) :
    (∀ bp sp : ℚ, (d.set_trading_fee v fee).net_profit_bps bv sv bp sp
        ≤ d.net_profit_bps bv sv bp sp)
    ∧ (∀ o, (d.set_trading_fee v fee).check_arbitrage_direction sym bv sv bb sb now
          = some o →
        ∃ o0, d.check_arbitrage_direction sym bv sv bb sb now = some o0
          ∧ o.profit_percentage ≤ o0.profit_percentage
          ∧ o.max_volume = o0.max_volume) := by
  have hmono : ∀ w, d.effective_fee w ≤ (d.set_trading_fee v fee).effective_fee w := by
    intro w
    rw [effective_fee_set]
    by_cases h : v = w
    · rw [if_pos h, ← h]
      exact hfee
    · rw [if_neg h]
  have hnet : ∀ bp sp : ℚ, (d.set_trading_fee v fee).net_profit_bps bv sv bp sp
      ≤ d.net_profit_bps bv sv bp sp := by
    intro bp sp
    simp only [CrossExchangeArbitrageDetector.net_profit_bps]
    have h1 := hmono bv
    have h2 := hmono sv
    nlinarith [h1, h2]
  refine ⟨hnet, ?_⟩
  intro o ho
  cases hba : bb.best_ask with
  | none =>
    simp [CrossExchangeArbitrageDetector.check_arbitrage_direction, hba] at ho
  | some a =>
    cases hbb : sb.best_bid with
    | none =>
      simp [CrossExchangeArbitrageDetector.check_arbitrage_direction, hba, hbb] at ho
    | some b2 =>
      rw [check_unfold (d.set_trading_fee v fee) sym bv sv bb sb now a b2 hba hbb] at ho
      rw [check_unfold d sym bv sv bb sb now a b2 hba hbb]
      split_ifs at ho with h1 h2 h3
      have hnetle := hnet a.price b2.price
      have h2d : ¬ (d.net_profit_bps bv sv a.price b2.price < d.min_profit_threshold) := by
        rw [not_lt] at h2 ⊢
        calc d.min_profit_threshold
            = (d.set_trading_fee v fee).min_profit_threshold := rfl
          _ ≤ (d.set_trading_fee v fee).net_profit_bps bv sv a.price b2.price := h2
          _ ≤ d.net_profit_bps bv sv a.price b2.price := hnetle
      have h3d : ¬ ((min a.quantity b2.quantity) * a.price < d.min_volume_threshold) := h3
      rw [if_neg h1, if_neg h2d, if_neg h3d]
      obtain rfl := (Option.some.inj ho)
      refine ⟨_, rfl, ?_, rfl⟩
      show (d.set_trading_fee v fee).net_profit_bps bv sv a.price b2.price / 10000
          ≤ d.net_profit_bps bv sv a.price b2.price / 10000
      linarith

/-- C8, witness: the monotonicity theorem applied to the default detector,
raising Coinbase's fee from 0.5 percent to 0.6 percent, over the wide-spread
books. -/
theorem fee_monotonicity_witness :
    defaultDet.effective_fee VenueId.Coinbase ≤ 6/1000
    ∧ ((∀ bp sp : ℚ,
          (defaultDet.set_trading_fee VenueId.Coinbase (6/1000)).net_profit_bps
              VenueId.Binance VenueId.Coinbase bp sp
            ≤ defaultDet.net_profit_bps VenueId.Binance VenueId.Coinbase bp sp)
      ∧ (∀ o, (defaultDet.set_trading_fee VenueId.Coinbase (6/1000)).check_arbitrage_direction
            symBTC VenueId.Binance VenueId.Coinbase wideBuyBook wideSellBook 0 = some o →
          ∃ o0, defaultDet.check_arbitrage_direction symBTC VenueId.Binance VenueId.Coinbase
              wideBuyBook wideSellBook 0 = some o0
            ∧ o.profit_percentage ≤ o0.profit_percentage
            ∧ o.max_volume = o0.max_volume)) := by
  have hfee : defaultDet.effective_fee VenueId.Coinbase ≤ 6/1000 := by
    simp [defaultDet, CrossExchangeArbitrageDetector.new,
      CrossExchangeArbitrageDetector.effective_fee, feesGet]
    norm_num
  exact ⟨hfee, fee_monotonicity defaultDet VenueId.Coinbase (6/1000) hfee symBTC
    VenueId.Binance VenueId.Coinbase wideBuyBook wideSellBook 0⟩

theorem toList_map_eq (o1 o2 : Option ArbitrageOpportunity)
    (h : o1.map oppData = o2.map oppData) :
    o1.toList.map oppData = o2.toList.map oppData := by
  cases o1 <;> cases o2 <;> simp_all

theorem check_oppData_time_invariant (d : CrossExchangeArbitrageDetector)
    (sym : Symbol) (bv sv : VenueId) (bb sb : OrderBook) (t1 t2 : ℚ) :
    (d.check_arbitrage_direction sym bv sv bb sb t1).map oppData
      = (d.check_arbitrage_direction sym bv sv bb sb t2).map oppData := by
  cases hba : bb.best_ask with
  | none => simp [CrossExchangeArbitrageDetector.check_arbitrage_direction, hba]
  | some a =>
    cases hbb : sb.best_bid with
    | none => simp [CrossExchangeArbitrageDetector.check_arbitrage_direction, hba, hbb]
    | some b2 =>
      rw [check_unfold d sym bv sv bb sb t1 a b2 hba hbb,
        check_unfold d sym bv sv bb sb t2 a b2 hba hbb]
      split_ifs <;> simp [oppData]

theorem foldr_oppData_time_invariant (d : CrossExchangeArbitrageDetector)
    (sym : Symbol) (va : VenueId) (ba : OrderBook)
    (rest : List (VenueId × OrderBook)) (t1 t2 : ℚ) :
    (rest.foldr (fun vb acc =>
        ((d.check_arbitrage_direction sym va vb.1 ba vb.2 t1).toList
          ++ (d.check_arbitrage_direction sym vb.1 va vb.2 ba t1).toList) ++ acc)
        []).map oppData
      = (rest.foldr (fun vb acc =>
        ((d.check_arbitrage_direction sym va vb.1 ba vb.2 t2).toList
          ++ (d.check_arbitrage_direction sym vb.1 va vb.2 ba t2).toList) ++ acc)
        []).map oppData := by
  induction rest with
  | nil => rfl
  | cons hd t ih =>
    simp only [List.foldr_cons, List.map_append]
    rw [ih, toList_map_eq _ _ (check_oppData_time_invariant d sym va hd.1 ba hd.2 t1 t2),
      toList_map_eq _ _ (check_oppData_time_invariant d sym hd.1 va hd.2 ba t1 t2)]

/-- C9, amended: detection is a pure function of the detector configuration,
the symbol, the venue-to-book list, and the invocation-time clock reading:
two invocations on identical inputs agree on every opportunity field except
`timestamp`, which records the wall-clock instant of the invocation
(`Utc::now()`) and therefore differs between runs. -/
theorem detect_pure_modulo_clock (d : CrossExchangeArbitrageDetector)
    (sym : Symbol) (books : List (VenueId × OrderBook)) (t1 t2 : ℚ) :
    (d.detect_opportunities sym books t1).map oppData
      = (d.detect_opportunities sym books t2).map oppData := by
  induction books with
  | nil => rfl
  | cons hd rest ih =>
    obtain ⟨va, ba⟩ := hd
    simp only [CrossExchangeArbitrageDetector.detect_opportunities, List.map_append]
    rw [ih, foldr_oppData_time_invariant d sym va ba rest t1 t2]

theorem detect_wide_timestamps (t : ℚ) :
    (defaultDet.detect_opportunities symBTC wideBooks t).map
      ArbitrageOpportunity.timestamp = [t] := by
  have hba : wideBuyBook.best_ask = some { price := 100, quantity := 2, timestamp := 0 } := by
    norm_num [wideBuyBook, OrderBook.new, OrderBook.update_ask, OrderBook.best_ask,
      keyInsert]
  have hbb : wideSellBook.best_bid = some { price := 110, quantity := 2, timestamp := 0 } := by
    norm_num [wideSellBook, OrderBook.new, OrderBook.update_bid, OrderBook.best_bid,
      keyInsert]
  have hna : wideSellBook.best_ask = none := by
    norm_num [wideSellBook, OrderBook.new, OrderBook.update_bid, OrderBook.best_ask]
  have hd2 : defaultDet.check_arbitrage_direction symBTC VenueId.Coinbase VenueId.Binance
      wideSellBook wideBuyBook t = none := by
    simp [CrossExchangeArbitrageDetector.check_arbitrage_direction, hna]
  have fB : defaultDet.effective_fee VenueId.Binance = 1/1000 := by
    simp [defaultDet, CrossExchangeArbitrageDetector.new,
      CrossExchangeArbitrageDetector.effective_fee, feesGet]
  have fC : defaultDet.effective_fee VenueId.Coinbase = 5/1000 := by
    simp [defaultDet, CrossExchangeArbitrageDetector.new,
      CrossExchangeArbitrageDetector.effective_fee, feesGet]
  obtain ⟨o, ho, hot⟩ : ∃ o, defaultDet.check_arbitrage_direction symBTC VenueId.Binance
      VenueId.Coinbase wideBuyBook wideSellBook t = some o ∧ o.timestamp = t := by
    rw [check_unfold defaultDet symBTC VenueId.Binance VenueId.Coinbase wideBuyBook
      wideSellBook t _ _ hba hbb]
    rw [if_neg (by norm_num), if_neg ?hn, if_neg ?hv]
    · exact ⟨_, rfl, rfl⟩
    case hn =>
      rw [not_lt]
      simp only [CrossExchangeArbitrageDetector.net_profit_bps, fB, fC]
      norm_num [defaultDet, CrossExchangeArbitrageDetector.new]
    case hv =>
      rw [not_lt]
      norm_num [defaultDet, CrossExchangeArbitrageDetector.new]
  simp [CrossExchangeArbitrageDetector.detect_opportunities, wideBooks, ho, hd2, hot]

/-- C9, counterexample: two invocations of `detect_opportunities` on the
identical detector, symbol and books, performed at different wall-clock
instants, return different lists — every field agrees except the `timestamp`
field, which is read from the ambient clock (`Utc::now()`), a dependence on
state outside the documented inputs. -/
theorem detect_clock_dependence_counterexample :
    defaultDet.detect_opportunities symBTC wideBooks 0
      ≠ defaultDet.detect_opportunities symBTC wideBooks 1 := by
  intro h
  have h0 := detect_wide_timestamps 0
  have h1 := detect_wide_timestamps 1
  rw [h] at h0
  have hlist : ([0] : List ℚ) = [1] := h0.symm.trans h1
  norm_num at hlist

theorem scen1_book_facts :
    binanceBook.best_ask = some { price := 50010, quantity := 3/2, timestamp := 0 }
    ∧ binanceBook.best_bid = some { price := 50000, quantity := 1, timestamp := 0 }
    ∧ coinbaseBook.best_ask = some { price := 50130, quantity := 1, timestamp := 0 }
    ∧ coinbaseBook.best_bid = some { price := 50120, quantity := 6/5, timestamp := 0 } := by
  refine ⟨?_, ?_, ?_, ?_⟩ <;>
    norm_num [binanceBook, coinbaseBook, OrderBook.new, OrderBook.update_bid,
      OrderBook.update_ask, OrderBook.best_ask, OrderBook.best_bid, keyInsert]

theorem scen1_fee_facts :
    scen1Det.effective_fee VenueId.Binance = 1/1000
    ∧ scen1Det.effective_fee VenueId.Coinbase = 1/1000
    ∧ scen1DetLow.effective_fee VenueId.Binance = 1/1000
    ∧ scen1DetLow.effective_fee VenueId.Coinbase = 1/1000 := by
  refine ⟨?_, ?_, ?_, ?_⟩ <;>
    simp [scen1Det, scen1DetLow, CrossExchangeArbitrageDetector.new,
      CrossExchangeArbitrageDetector.set_trading_fee,
      CrossExchangeArbitrageDetector.effective_fee, feesGet, feesInsert]

theorem scen1_rev_none (d : CrossExchangeArbitrageDetector) :
    d.check_arbitrage_direction symBTC VenueId.Coinbase VenueId.Binance
      coinbaseBook binanceBook 0 = none := by
  obtain ⟨hba, hbid, hca, hcb⟩ := scen1_book_facts
  rw [check_unfold d symBTC VenueId.Coinbase VenueId.Binance coinbaseBook binanceBook 0
    _ _ hca hbid]
  rw [if_pos (by norm_num)]

theorem scen1_check_none :
    scen1Det.check_arbitrage_direction symBTC VenueId.Binance VenueId.Coinbase
      binanceBook coinbaseBook 0 = none := by
  obtain ⟨hba, hbid, hca, hcb⟩ := scen1_book_facts
  obtain ⟨fB, fC, _, _⟩ := scen1_fee_facts
  rw [check_unfold scen1Det symBTC VenueId.Binance VenueId.Coinbase binanceBook
    coinbaseBook 0 _ _ hba hcb]
  rw [if_neg (by norm_num), if_pos ?_]
  simp only [CrossExchangeArbitrageDetector.net_profit_bps, fB, fC]
  norm_num [scen1Det, CrossExchangeArbitrageDetector.new,
    CrossExchangeArbitrageDetector.set_trading_fee]

theorem scen1_low_detect :
    ∃ o, scen1DetLow.detect_opportunities symBTC scen1Books 0 = [o]
      ∧ o.buy_venue = VenueId.Binance ∧ o.sell_venue = VenueId.Coinbase
      ∧ o.max_volume = 6/5 ∧ 0 < o.profit_percentage := by
  obtain ⟨hba, hbid, hca, hcb⟩ := scen1_book_facts
  obtain ⟨_, _, fB, fC⟩ := scen1_fee_facts
  obtain ⟨o, ho, h1, h2, h3, h4⟩ : ∃ o, scen1DetLow.check_arbitrage_direction symBTC
      VenueId.Binance VenueId.Coinbase binanceBook coinbaseBook 0 = some o
      ∧ o.buy_venue = VenueId.Binance ∧ o.sell_venue = VenueId.Coinbase
      ∧ o.max_volume = 6/5 ∧ 0 < o.profit_percentage := by
    rw [check_unfold scen1DetLow symBTC VenueId.Binance VenueId.Coinbase binanceBook
      coinbaseBook 0 _ _ hba hcb]
    rw [if_neg (by norm_num), if_neg ?hn, if_neg ?hv]
    · refine ⟨_, rfl, rfl, rfl, ?_, ?_⟩
      · show min (3/2 : ℚ) (6/5) = 6/5
        norm_num [min_def]
      · show 0 < scen1DetLow.net_profit_bps VenueId.Binance VenueId.Coinbase 50010 50120 / 10000
        simp only [CrossExchangeArbitrageDetector.net_profit_bps, fB, fC]
        norm_num
    case hn =>
      rw [not_lt]
      simp only [CrossExchangeArbitrageDetector.net_profit_bps, fB, fC]
      norm_num [scen1DetLow, CrossExchangeArbitrageDetector.new,
        CrossExchangeArbitrageDetector.set_trading_fee]
    case hv =>
      rw [not_lt]
      show scen1DetLow.min_volume_threshold ≤ min (3/2 : ℚ) (6/5) * 50010
      norm_num [min_def, scen1DetLow, CrossExchangeArbitrageDetector.new,
        CrossExchangeArbitrageDetector.set_trading_fee]
  refine ⟨o, ?_, h1, h2, h3, h4⟩
  simp [CrossExchangeArbitrageDetector.detect_opportunities, scen1Books, ho,
    scen1_rev_none scen1DetLow]

/-- C2, counterexample: in the spec's concrete scenario 1 — venue A best ask
50010 qty 1.5, venue B best bid 50120 qty 1.2, both fees 0.1 percent,
minimum profit 10 bps, minimum volume 100 — the detector returns no
opportunity at all (the claim says exactly one): the net profit is about
1.9956 bps, below the configured 10 bps threshold, so the direction is
rejected. -/
theorem scen1_counterexample :
    (scen1Det.detect_opportunities symBTC scen1Books 0).length = 0 := by
  have hd := scen1_check_none
  have hr := scen1_rev_none scen1Det
  simp only [CrossExchangeArbitrageDetector.detect_opportunities, scen1Books,
    List.foldr_cons, List.foldr_nil, hd, hr, Option.toList_none, List.append_nil,
    List.nil_append, List.length_nil]

/-- C2, amended: in concrete scenario 1 the detector returns the empty list,
because the net profit (≈ 1.9956 bps, which is positive) is below the 10 bps
minimum-profit threshold; with the threshold lowered to 1 bps the detector
returns exactly one opportunity, buying on venue A and selling on venue B,
with quantity 1.2 and positive net profit. -/
theorem scen1_amended :
    scen1Det.detect_opportunities symBTC scen1Books 0 = []
    ∧ ∃ o, scen1DetLow.detect_opportunities symBTC scen1Books 0 = [o]
        ∧ o.buy_venue = VenueId.Binance ∧ o.sell_venue = VenueId.Coinbase
        ∧ o.max_volume = 6/5 ∧ 0 < o.profit_percentage := by
  constructor
  · have hd := scen1_check_none
    have hr := scen1_rev_none scen1Det
    simp only [CrossExchangeArbitrageDetector.detect_opportunities, scen1Books,
      List.foldr_cons, List.foldr_nil, hd, hr, Option.toList_none, List.append_nil,
      List.nil_append]
  · exact scen1_low_detect

end ArbFinder

